import Mathlib

/-!
Shallow embedding of the WOTS signature API (`bitvm/src/signatures/wots_api.rs`)
and the Ethereum bridge adaptor (`bridge/src/client/chain/ethereum_adaptor.rs`).

Bytes are modelled as `Nat` (with `< 256` bounds tracked in hypotheses where
they matter); a bitcoin `Witness` is a `List (List Nat)` of byte groups.
A Rust `panic!` / failed `unwrap` is modelled as the `panicked` constructor of
an explicit outcome type, so that "returns a typed error" and "crashes" are
distinguishable outcomes of the embedded functions.
-/

set_option autoImplicit false

/-- Outcome of a Rust function that either returns a value or panics
(`unwrap` / `panic!` / failed `assert`); there is no error channel. -/
inductive POutcome (α : Type) where
  | ok : α → POutcome α
  | panicked : POutcome α
  deriving DecidableEq, Repr

/-- Outcome of a Rust function returning `Result<α, String>` that may also
panic on the way. -/
inductive Res (α : Type) where
  | ok : α → Res α
  | err : String → Res α
  | panicked : Res α
  deriving DecidableEq, Repr

/-- Modelled from the spec: the `winternitz::Parameters` value object from the
absent `signatures/winternitz` module — a digit bit width, the number of
message digits and the number of checksum digits. -/
structure Parameters where
  digit_bit_width : Nat
  message_digit_count : Nat
  checksum_digit_count : Nat
  deriving DecidableEq, Repr

/-- Modelled from the spec: `winternitz::Parameters::new_by_bit_length`.
The message digit count is `ceil(message_bit_length / digit_bit_width)`; the
checksum digit count is the least `d` with `(2^w)^d` exceeding the maximum
checksum value `message_digit_count * (2^w - 1)`, i.e. `log_{2^w}` of that
maximum, plus one. -/
def Parameters.new_by_bit_length (bits w : Nat) : Parameters :=
  { digit_bit_width := w
    message_digit_count := (bits + w - 1) / w
    checksum_digit_count :=
      Nat.log (2 ^ w) ((bits + w - 1) / w * (2 ^ w - 1)) + 1 }

/-- Modelled from the spec: `Parameters::total_digit_len`, the total digit
count `message_digit_count + checksum_digit_count`. -/
def Parameters.total_digit_len (p : Parameters) : Nat :=
  p.message_digit_count + p.checksum_digit_count

/-- Value of a hex digit character, or `none` when the character is not a hex
digit; models one character step of `bitcoin::hex::FromHex`. -/
def hexDigitVal (c : Char) : Option Nat :=
  if '0' ≤ c ∧ c ≤ '9' then some (c.toNat - '0'.toNat)
  else if 'a' ≤ c ∧ c ≤ 'f' then some (c.toNat - 'a'.toNat + 10)
  else if 'A' ≤ c ∧ c ≤ 'F' then some (c.toNat - 'A'.toNat + 10)
  else none

/-- Embedding of `Vec::<u8>::from_hex`: two hex digit characters per byte;
fails on an odd-length string or on any non-hex-digit character. -/
def hexDecode : List Char → Option (List Nat)
  | [] => some []
  | [_] => none
  | c1 :: c2 :: rest =>
    match hexDigitVal c1, hexDigitVal c2, hexDecode rest with
    | some hi, some lo, some tail => some ((16 * hi + lo) :: tail)
    | _, _, _ => none

/-- Modelled from the spec: `u32_to_le_bytes_minimal` from the (absent)
`signatures/utils` module — the minimal-length little-endian byte
representation of a value, dropping high zero bytes, with `0` encoded as the
empty byte string. -/
def u32_to_le_bytes_minimal (x : Nat) : List Nat :=
  if h : x = 0 then []
  else x % 256 :: u32_to_le_bytes_minimal (x / 256)
termination_by x
decreasing_by exact Nat.div_lt_self (Nat.pos_of_ne_zero h) (by norm_num)

namespace wots

/-- Iterated application of the hash-chain primitive `H`: position `k` of the
chain over seed `s` is `s` hashed `k` times. The primitive itself is an
external collaborator and stays abstract. -/
def chain (H : List Nat → List Nat) : Nat → List Nat → List Nat
  | 0, s => s
  | k + 1, s => H (chain H k s)

/-- Modelled from the spec: the digits of one message byte, most-significant
digit first, `8 / w` digits of `w` bits each. -/
def byteDigits (w : Nat) (b : Nat) : List Nat :=
  (List.range (8 / w)).map (fun j => b / 2 ^ (8 - w * (j + 1)) % 2 ^ w)

/-- Modelled from the spec: the checksum `Σ (2^w − 1 − digit)` over the
message digits. -/
def checksumOf (w : Nat) (digits : List Nat) : Nat :=
  (digits.map (fun d => 2 ^ w - 1 - d)).sum

/-- Modelled from the spec: a value split into `len` base-`base` digits,
most-significant first, zero-padded on the high side. -/
def toBaseDigitsBE (base len v : Nat) : List Nat :=
  (List.range len).map (fun j => v / base ^ (len - 1 - j) % base)

/-- Modelled from the spec: the full digit sequence signed by the Winternitz
signer — message digits followed by checksum digits. -/
def signDigits (p : Parameters) (msg : List Nat) : List Nat :=
  let md := (msg.map (byteDigits p.digit_bit_width)).flatten
  md ++ toBaseDigitsBE (2 ^ p.digit_bit_width) p.checksum_digit_count
    (checksumOf p.digit_bit_width md)

/-- Modelled from the spec: `WINTERNITZ_MESSAGE_VERIFIER.sign` from the absent
`winternitz` module, returning the witness as alternating byte groups
`(chain value at the digit position, minimal encoding of the digit)`; the
per-position seed derivation is abstract (`seedFn`). -/
def winternitz_sign (H : List Nat → List Nat) (seedFn : List Nat → Nat → List Nat)
    (p : Parameters) (sk msg : List Nat) : List (List Nat) :=
  ((signDigits p msg).enum.map
    (fun pr => [chain H pr.2 (seedFn sk pr.1), u32_to_le_bytes_minimal pr.2])).flatten

/-- Modelled from the spec: `winternitz::generate_public_key` — for each digit
position, the seed hashed `2^w − 1` times. -/
def winternitz_generate_public_key (H : List Nat → List Nat)
    (seedFn : List Nat → Nat → List Nat) (p : Parameters) (sk : List Nat) :
    List (List Nat) :=
  (List.range p.total_digit_len).map
    (fun i => chain H (2 ^ p.digit_bit_width - 1) (seedFn sk i))

/-- Decoding of one chain-value byte group, from `raw_witness_to_signature`:
an empty group becomes the all-zero 20-byte value, a 20-byte group is taken
as is, and any other length makes `try_into().unwrap()` panic (`none`). -/
def decodeChain (g : List Nat) : Option (List Nat) :=
  if g.length = 0 then some (List.replicate 20 0)
  else if g.length = 20 then some g
  else none

/-- Decoding of one digit-value byte group: an empty group becomes digit 0,
a 1-byte group yields its byte, and a longer group makes the
`try_into::<[u8; 1]>().unwrap()` panic (`none`). -/
def decodeDigit (g : List Nat) : Option Nat :=
  if g.length = 0 then some 0
  else if g.length = 1 then some (g.headD 0)
  else none

/-- The pair loop of `raw_witness_to_signature`: groups are consumed two at a
time; a trailing lone group corresponds to the out-of-bounds access
`signature[i + 1]`, which panics (`none`). -/
def rawWitnessAux : List (List Nat) → Option (List (List Nat × Nat))
  | [] => some []
  | [_] => none
  | g0 :: g1 :: rest =>
    match decodeChain g0, decodeDigit g1, rawWitnessAux rest with
    | some p, some d, some tail => some ((p, d) :: tail)
    | _, _, _ => none

/-- Embedding of `raw_witness_to_signature` (full variant) for a module with
`N_DIGITS = n`: run the pair loop, then the final
`sigs_vec.try_into().unwrap()` panics unless exactly `n` pairs were built. -/
def raw_witness_to_signature (n : Nat) (w : List (List Nat)) :
    POutcome (List (List Nat × Nat)) :=
  match rawWitnessAux w with
  | some s => if s.length = n then .ok s else .panicked
  | none => .panicked

/-- Embedding of `signature_to_raw_witness` (full variant): for each pair,
push the 20 preimage bytes and the minimal encoding of the digit. -/
def signature_to_raw_witness (sig : List (List Nat × Nat)) : List (List Nat) :=
  (sig.map (fun p => [p.1, u32_to_le_bytes_minimal p.2])).flatten

/-- Embedding of `get_signature` (full variant): decode the hex secret,
panicking on failure (`panic!("Invalid hex string for secret")`), sign with
the (spec-modelled) Winternitz signer, `assert_eq!` the witness length
against `2 * N_DIGITS`, then convert the witness to a signature array. -/
def get_signature (H : List Nat → List Nat) (seedFn : List Nat → Nat → List Nat)
    (p : Parameters) (n : Nat) (secret : List Char) (msg : List Nat) :
    POutcome (List (List Nat × Nat)) :=
  match hexDecode secret with
  | none => .panicked
  | some sk =>
    let sigs := winternitz_sign H seedFn p sk msg
    if sigs.length = 2 * n then raw_witness_to_signature n sigs
    else .panicked

/-- Embedding of `generate_public_key`: decode the hex secret, panicking on
failure, derive the public key, then `pubkey_vec.try_into().unwrap()` panics
unless it has exactly `N_DIGITS` entries. -/
def generate_public_key (H : List Nat → List Nat) (seedFn : List Nat → Nat → List Nat)
    (p : Parameters) (n : Nat) (secret : List Char) :
    POutcome (List (List Nat)) :=
  match hexDecode secret with
  | none => .panicked
  | some sk =>
    let pk := winternitz_generate_public_key H seedFn p sk
    if pk.length = n then .ok pk else .panicked

namespace compact

/-- The loop of the compact `raw_witness_to_signature`: every group is decoded
as a chain value. -/
def rawWitnessAux : List (List Nat) → Option (List (List Nat))
  | [] => some []
  | g :: rest =>
    match wots.decodeChain g, rawWitnessAux rest with
    | some p, some tail => some (p :: tail)
    | _, _ => none

/-- Embedding of `compact::raw_witness_to_signature` for `N_DIGITS = n`:
decode every group as a chain value, then the final
`sigs_vec.try_into().unwrap()` panics unless exactly `n` values were built. -/
def raw_witness_to_signature (n : Nat) (w : List (List Nat)) :
    POutcome (List (List Nat)) :=
  match rawWitnessAux w with
  | some s => if s.length = n then .ok s else .panicked
  | none => .panicked

/-- Embedding of `compact::signature_to_raw_witness`: push each 20-byte chain
value as its own group. -/
def signature_to_raw_witness (sig : List (List Nat)) : List (List Nat) :=
  sig

/-- Modelled from the spec: `WINTERNITZ_MESSAGE_COMPACT_VERIFIER.sign` — the
same digit sequence as the full signer, but the witness carries only the
chain values, one group per digit position. -/
def winternitz_sign (H : List Nat → List Nat) (seedFn : List Nat → Nat → List Nat)
    (p : Parameters) (sk msg : List Nat) : List (List Nat) :=
  (signDigits p msg).enum.map (fun pr => chain H pr.2 (seedFn sk pr.1))

/-- Embedding of `compact::get_signature`: decode the hex secret, panicking on
failure, sign compactly, `assert_eq!` the witness length against `N_DIGITS`,
then convert the witness to an array. -/
def get_signature (H : List Nat → List Nat) (seedFn : List Nat → Nat → List Nat)
    (p : Parameters) (n : Nat) (secret : List Char) (msg : List Nat) :
    POutcome (List (List Nat)) :=
  match hexDecode secret with
  | none => .panicked
  | some sk =>
    let sigs := winternitz_sign H seedFn p sk msg
    if sigs.length = n then raw_witness_to_signature n sigs
    else .panicked

end compact

end wots

/-- Message length in bytes of the `wots256` instantiation
(`const BIGINT_LEN: u32 = 32`). -/
def BIGINT_LEN : Nat := 32

/-- Message length in bytes of the `wots_hash` instantiation
(`pub const HASH_LEN: u32 = 16`). -/
def HASH_LEN : Nat := 16

namespace wots_hash

/-- `MSG_LEN` of the `wots_hash` module, from `impl_wots!(wots_hash, HASH_LEN)`. -/
def MSG_LEN : Nat := HASH_LEN

/-- `PS`, the derived parameters of the `wots_hash` module. -/
def PS : Parameters := Parameters.new_by_bit_length (MSG_LEN * 8) 4

/-- `N_DIGITS`, the total digit count of the `wots_hash` module. -/
def N_DIGITS : Nat := PS.total_digit_len

end wots_hash

namespace wots256

/-- `MSG_LEN` of the `wots256` module, from `impl_wots!(wots256, BIGINT_LEN)`. -/
def MSG_LEN : Nat := BIGINT_LEN

/-- `PS`, the derived parameters of the `wots256` module. -/
def PS : Parameters := Parameters.new_by_bit_length (MSG_LEN * 8) 4

/-- `N_DIGITS`, the total digit count of the `wots256` module. -/
def N_DIGITS : Nat := PS.total_digit_len

end wots256

/-!
Embedding of the Ethereum bridge adaptor
(`bridge/src/client/chain/ethereum_adaptor.rs`). The RPC provider and the
per-log decoding are modelled by their results (an `Except` for the provider
call and one per log); the external `bitcoin` parsers `Address::from_str`
(composed with `assume_checked().pubkey_hash()`) and `PublicKey::from_slice`
are abstract parameters returning `Option` results.
-/

namespace ethereum_adaptor

/-- The solidity `Outpoint` struct: a 32-byte transaction id and an output
index (a `uint256`, modelled as `Nat`). -/
structure SolOutpoint where
  txId : List Nat
  vOut : Nat
  deriving DecidableEq, Repr

/-- Decoded field data of a `PegOutInitiated` log. -/
structure PegOutInitiatedData where
  withdrawer : String
  destination_address : String
  source_outpoint : SolOutpoint
  amount : Nat
  operator_pubKey : List Nat
  deriving DecidableEq, Repr

/-- An `alloy` `Log<PegOutInitiated>`: the decoded event data plus the
optional block timestamp and transaction hash carried by the log metadata. -/
structure SolLog where
  data : PegOutInitiatedData
  block_timestamp : Option Nat
  transaction_hash : Option (List Nat)
  deriving DecidableEq, Repr

/-- The domain `PegOutEvent` record built by `get_peg_out_init_event`. -/
structure PegOutEvent where
  withdrawer_chain_address : String
  withdrawer_destination_address : String
  withdrawer_public_key_hash : List Nat
  source_outpoint_txid : List Nat
  source_outpoint_vout : Nat
  amount : Nat
  operator_public_key : List Nat
  timestamp : Nat
  tx_hash : List Nat
  deriving DecidableEq, Repr

/-- Embedding of `get_sol_events`: an RPC error is returned as `Err` of its
message; then each log is decoded in order and the first decode error is
returned as `Err`; otherwise all decoded logs are returned. -/
def get_sol_events (rpc : Except String (List (Except String SolLog))) :
    Res (List SolLog) :=
  match rpc with
  | .error e => .err e
  | .ok logs => goLogs logs
where
  goLogs : List (Except String SolLog) → Res (List SolLog)
    | [] => .ok []
    | .error e :: _ => .err e
    | .ok l :: rest =>
      match goLogs rest with
      | .ok tail => .ok (l :: tail)
      | .err e => .err e
      | .panicked => .panicked

/-- The body of the `filter_map` closure in `get_peg_out_init_event`, for one
log. Every `unwrap` is modelled as a panic on the `none`/failure case:
the destination address parse, the operator public key parse, the
`Txid::from_slice` length-32 check, the `vOut.to::<u32>()` and
`u32::try_from(timestamp)` range checks, the `Amount::from_str_in` range
check, and the missing block timestamp / transaction hash. An address whose
`pubkey_hash()` is `none` skips the log (the `filter_map` `None` arm). -/
def processPegOut (addrParse : String → Option (Option (List Nat)))
    (pkParse : List Nat → Option (List Nat)) (e : SolLog) :
    Res (Option PegOutEvent) :=
  match addrParse e.data.destination_address with
  | none => .panicked
  | some addr =>
    match pkParse e.data.operator_pubKey with
    | none => .panicked
    | some pk =>
      match addr with
      | none => .ok none
      | some pkh =>
        let txidVec := e.data.source_outpoint.txId.reverse
        if txidVec.length = 32 then
          if e.data.source_outpoint.vOut < 2 ^ 32 then
            if e.data.amount < 2 ^ 64 then
              match e.block_timestamp with
              | none => .panicked
              | some ts =>
                if ts < 2 ^ 32 then
                  match e.transaction_hash with
                  | none => .panicked
                  | some th =>
                    .ok (some
                      { withdrawer_chain_address := e.data.withdrawer
                        withdrawer_destination_address := e.data.destination_address
                        withdrawer_public_key_hash := pkh
                        source_outpoint_txid := txidVec
                        source_outpoint_vout := e.data.source_outpoint.vOut
                        amount := e.data.amount
                        operator_public_key := pk
                        timestamp := ts
                        tx_hash := th })
                else .panicked
            else .panicked
          else .panicked
        else .panicked

/-- Collects the per-log results of the `filter_map`: a panic in any closure
invocation aborts the whole call with a panic; `none` results are dropped. -/
def collectFM {α : Type} : List (Res (Option α)) → Res (List α)
  | [] => .ok []
  | r :: rest =>
    match r with
    | .panicked => .panicked
    | .err e => .err e
    | .ok none => collectFM rest
    | .ok (some x) =>
      match collectFM rest with
      | .ok tail => .ok (x :: tail)
      | .err e => .err e
      | .panicked => .panicked

/-- Embedding of `get_peg_out_init_event`: propagate `get_sol_events` errors
as `Err`, then run the `filter_map` over the decoded logs. -/
def get_peg_out_init_event (addrParse : String → Option (Option (List Nat)))
    (pkParse : List Nat → Option (List Nat))
    (rpc : Except String (List (Except String SolLog))) :
    Res (List PegOutEvent) :=
  match get_sol_events rpc with
  | .err e => .err e
  | .panicked => .panicked
  | .ok evs => collectFM (evs.map (processPegOut addrParse pkParse))

/-- A well-formed sample `PegOutInitiated` log used as a fixture. -/
def goodLog : SolLog :=
  { data :=
      { withdrawer := "w"
        destination_address := "d"
        source_outpoint := { txId := List.replicate 32 0, vOut := 0 }
        amount := 1
        operator_pubKey := List.replicate 33 2 }
    block_timestamp := some 5
    transaction_hash := some (List.replicate 32 1) }

/-- The sample log with its block timestamp missing. -/
def logNoTimestamp : SolLog :=
  { goodLog with block_timestamp := none }

/-- The sample log with its transaction hash missing. -/
def logNoTxHash : SolLog :=
  { goodLog with transaction_hash := none }

/-- An address parser that always succeeds with a pubkey-hash address. -/
def goodAddrParse : String → Option (Option (List Nat)) :=
  fun _ => some (some (List.replicate 20 3))

/-- An address parser that always fails, as `Address::from_str` does on an
unparsable destination address. -/
def noneAddrParse : String → Option (Option (List Nat)) :=
  fun _ => none

/-- A public key parser that always succeeds. -/
def goodPkParse : List Nat → Option (List Nat) :=
  fun b => some b

/-- A public key parser that always fails, as `PublicKey::from_slice` does on
an invalid operator public key. -/
def nonePkParse : List Nat → Option (List Nat) :=
  fun _ => none

end ethereum_adaptor

/-!
Helper lemmas.
-/

/-- Two-at-a-time induction on lists, matching the pair loop of the full
witness decoder. -/
theorem List.twoStepInduction {α : Type} {motive : List α → Prop}
    (h0 : motive []) (h1 : ∀ a, motive [a])
    (h2 : ∀ a b l, motive l → motive (a :: b :: l)) : ∀ l, motive l
  | [] => h0
  | [a] => h1 a
  | a :: b :: l => h2 a b l (List.twoStepInduction h0 h1 h2 l)

/-- The minimal little-endian encoding of a byte value is empty for `0` and a
single byte otherwise. -/
theorem u32_to_le_bytes_minimal_byte {d : Nat} (hd : d < 256) :
    u32_to_le_bytes_minimal d = if d = 0 then [] else [d] := by
  rcases Nat.eq_zero_or_pos d with h | h
  · subst h; rw [u32_to_le_bytes_minimal]; simp
  · have hne : d ≠ 0 := Nat.pos_iff_ne_zero.mp h
    rw [u32_to_le_bytes_minimal]
    simp only [hne, dite_false, if_neg hne]
    rw [Nat.mod_eq_of_lt hd, Nat.div_eq_of_lt hd, u32_to_le_bytes_minimal]
    simp

/-- A 20-byte chain value decodes to itself. -/
theorem decodeChain_of_length {g : List Nat} (h : g.length = 20) :
    wots.decodeChain g = some g := by
  simp [wots.decodeChain, h]

/-- The minimal encoding of a byte value decodes back to that value. -/
theorem decodeDigit_u32_le_bytes {d : Nat} (hd : d < 256) :
    wots.decodeDigit (u32_to_le_bytes_minimal d) = some d := by
  rw [u32_to_le_bytes_minimal_byte hd]
  rcases Nat.eq_zero_or_pos d with h | h
  · subst h; simp [wots.decodeDigit]
  · have hne : d ≠ 0 := Nat.pos_iff_ne_zero.mp h
    simp [wots.decodeDigit, hne]

/-- The pair loop inverts the full encoder on well-formed signatures. -/
theorem rawWitnessAux_encode (sig : List (List Nat × Nat))
    (h20 : ∀ p ∈ sig, (p.1).length = 20) (hd : ∀ p ∈ sig, p.2 < 256) :
    wots.rawWitnessAux (wots.signature_to_raw_witness sig) = some sig := by
  induction sig with
  | nil => simp [wots.signature_to_raw_witness, wots.rawWitnessAux]
  | cons p rest ih =>
    have hp20 : (p.1).length = 20 := h20 p (List.mem_cons_self p rest)
    have hpd : p.2 < 256 := hd p (List.mem_cons_self p rest)
    have ih' := ih (fun q hq => h20 q (List.mem_cons_of_mem p hq))
      (fun q hq => hd q (List.mem_cons_of_mem p hq))
    simp only [wots.signature_to_raw_witness, List.map_cons, List.flatten_cons] at ih' ⊢
    simp only [List.cons_append, List.nil_append]
    rw [wots.rawWitnessAux, decodeChain_of_length hp20, decodeDigit_u32_le_bytes hpd, ih']

/-- The compact loop inverts the compact encoder on well-formed signatures. -/
theorem compactAux_encode (sig : List (List Nat))
    (h20 : ∀ g ∈ sig, g.length = 20) :
    wots.compact.rawWitnessAux (wots.compact.signature_to_raw_witness sig) = some sig := by
  induction sig with
  | nil => simp [wots.compact.signature_to_raw_witness, wots.compact.rawWitnessAux]
  | cons g rest ih =>
    have hg : g.length = 20 := h20 g (List.mem_cons_self g rest)
    have ih' := ih (fun q hq => h20 q (List.mem_cons_of_mem g hq))
    simp only [wots.compact.signature_to_raw_witness] at ih' ⊢
    rw [wots.compact.rawWitnessAux, decodeChain_of_length hg, ih']

/-- A successful pair loop consumed exactly two groups per produced pair. -/
theorem rawWitnessAux_length :
    ∀ (w : List (List Nat)) (s : List (List Nat × Nat)),
      wots.rawWitnessAux w = some s → w.length = 2 * s.length := by
  intro w
  induction w using List.twoStepInduction with
  | h0 => intro s h; simp [wots.rawWitnessAux] at h; subst h; simp
  | h1 a => intro s h; simp [wots.rawWitnessAux] at h
  | h2 a b l ih =>
    intro s h
    rw [wots.rawWitnessAux] at h
    rcases hc : wots.decodeChain a with _ | p <;> rw [hc] at h
    · exact absurd h (by simp)
    rcases hd : wots.decodeDigit b with _ | d <;> rw [hd] at h
    · exact absurd h (by simp)
    rcases ht : wots.rawWitnessAux l with _ | tail <;> rw [ht] at h
    · exact absurd h (by simp)
    simp only [Option.some.injEq] at h
    subst h
    have := ih tail ht
    simp only [List.length_cons]
    omega

/-- A successful compact loop produced one value per group. -/
theorem compactAux_length :
    ∀ (w : List (List Nat)) (s : List (List Nat)),
      wots.compact.rawWitnessAux w = some s → w.length = s.length := by
  intro w
  induction w with
  | nil => intro s h; simp [wots.compact.rawWitnessAux] at h; subst h; rfl
  | cons g rest ih =>
    intro s h
    rw [wots.compact.rawWitnessAux] at h
    rcases hc : wots.decodeChain g with _ | p <;> rw [hc] at h
    · exact absurd h (by simp)
    rcases ht : wots.compact.rawWitnessAux rest with _ | tail <;> rw [ht] at h
    · exact absurd h (by simp)
    simp only [Option.some.injEq] at h
    subst h
    simp [ih tail ht]

/-- Pointwise description of a successful pair loop: the `i`-th produced pair
is obtained by decoding groups `2 i` and `2 i + 1`. -/
theorem rawWitnessAux_get? :
    ∀ (w : List (List Nat)) (s : List (List Nat × Nat)),
      wots.rawWitnessAux w = some s → ∀ i : Nat,
        s.get? i = ((w.get? (2 * i)).bind wots.decodeChain).bind
          (fun p => ((w.get? (2 * i + 1)).bind wots.decodeDigit).map (fun d => (p, d))) := by
  intro w
  induction w using List.twoStepInduction with
  | h0 => intro s h i; simp [wots.rawWitnessAux] at h; subst h; simp
  | h1 a => intro s h i; simp [wots.rawWitnessAux] at h
  | h2 a b l ih =>
    intro s h i
    rw [wots.rawWitnessAux] at h
    rcases hc : wots.decodeChain a with _ | p <;> rw [hc] at h
    · exact absurd h (by simp)
    rcases hd : wots.decodeDigit b with _ | d <;> rw [hd] at h
    · exact absurd h (by simp)
    rcases ht : wots.rawWitnessAux l with _ | tail <;> rw [ht] at h
    · exact absurd h (by simp)
    simp only [Option.some.injEq] at h
    subst h
    cases i with
    | zero => simp [hc, hd]
    | succ j =>
      have h2j : 2 * (j + 1) = (2 * j + 1) + 1 := by ring
      rw [h2j]
      simp only [List.get?_cons_succ]
      exact ih tail ht j

/-- A chain-value group decodes successfully exactly when it is empty or
20 bytes long. -/
theorem decodeChain_isSome_iff (g : List Nat) :
    (∃ p, wots.decodeChain g = some p) ↔ (g.length = 0 ∨ g.length = 20) := by
  unfold wots.decodeChain
  by_cases h0 : g.length = 0 <;> by_cases h20 : g.length = 20 <;> simp [h0, h20]

/-- A digit-value group decodes successfully exactly when it has at most one
byte. -/
theorem decodeDigit_isSome_iff (g : List Nat) :
    (∃ d, wots.decodeDigit g = some d) ↔ g.length ≤ 1 := by
  unfold wots.decodeDigit
  by_cases h0 : g.length = 0
  · simp [h0]
  · by_cases h1 : g.length = 1
    · simp [h0, h1]
    · simp only [h0, h1, if_false]
      constructor
      · rintro ⟨d, hd⟩
        exact absurd hd (by simp)
      · intro hle
        omega

/-- The pair loop succeeds exactly when the group count is even, every
even-indexed group is empty or 20 bytes, and every odd-indexed group has at
most one byte. -/
theorem rawWitnessAux_isSome_iff :
    ∀ (w : List (List Nat)),
      (∃ s, wots.rawWitnessAux w = some s) ↔
        (w.length % 2 = 0 ∧ ∀ i g, w.get? i = some g →
          (i % 2 = 0 → g.length = 0 ∨ g.length = 20) ∧ (i % 2 = 1 → g.length ≤ 1)) := by
  intro w
  induction w using List.twoStepInduction with
  | h0 => simp [wots.rawWitnessAux]
  | h1 a =>
    constructor
    · rintro ⟨s, hs⟩; simp [wots.rawWitnessAux] at hs
    · rintro ⟨hlen, _⟩; simp at hlen
  | h2 a b l ih =>
    constructor
    · rintro ⟨s, hs⟩
      rw [wots.rawWitnessAux] at hs
      rcases hc : wots.decodeChain a with _ | p <;> rw [hc] at hs
      · exact absurd hs (by simp)
      rcases hd : wots.decodeDigit b with _ | d <;> rw [hd] at hs
      · exact absurd hs (by simp)
      rcases ht : wots.rawWitnessAux l with _ | t <;> rw [ht] at hs
      · exact absurd hs (by simp)
      obtain ⟨hl2, hcond⟩ := ih.mp ⟨t, ht⟩
      refine ⟨by simp only [List.length_cons]; omega, ?_⟩
      intro i g hg
      rcases i with _ | (_ | j)
      · simp only [List.get?_cons_zero, Option.some.injEq] at hg
        subst hg
        exact ⟨fun _ => (decodeChain_isSome_iff a).mp ⟨p, hc⟩, by omega⟩
      · simp only [List.get?_cons_succ, List.get?_cons_zero, Option.some.injEq] at hg
        subst hg
        exact ⟨by omega, fun _ => (decodeDigit_isSome_iff b).mp ⟨d, hd⟩⟩
      · simp only [List.get?_cons_succ] at hg
        obtain ⟨t1, t2⟩ := hcond j g hg
        exact ⟨fun hp => t1 (by omega), fun hp => t2 (by omega)⟩
    · rintro ⟨hlen, hcond⟩
      have ha := hcond 0 a rfl
      have hb := hcond 1 b rfl
      obtain ⟨p, hc⟩ := (decodeChain_isSome_iff a).mpr (ha.1 (by omega))
      obtain ⟨d, hd⟩ := (decodeDigit_isSome_iff b).mpr (hb.2 (by omega))
      obtain ⟨t, ht⟩ := ih.mpr ⟨by simp only [List.length_cons] at hlen; omega,
        fun i g hg => by
          have := hcond (i + 2) g (by simpa using hg)
          have hpar : (i + 2) % 2 = i % 2 := Nat.add_mod_right i 2
          rw [hpar] at this
          exact this⟩
      exact ⟨(p, d) :: t, by rw [wots.rawWitnessAux, hc, hd, ht]⟩

/-- Unfolding of the full decoder: success means the pair loop succeeded and
produced exactly `n` pairs. -/
theorem raw_witness_to_signature_ok_iff (n : Nat) (w : List (List Nat))
    (s : List (List Nat × Nat)) :
    wots.raw_witness_to_signature n w = POutcome.ok s ↔
      (wots.rawWitnessAux w = some s ∧ s.length = n) := by
  unfold wots.raw_witness_to_signature
  rcases h : wots.rawWitnessAux w with _ | t
  · simp
  · show (if t.length = n then POutcome.ok t else POutcome.panicked) = POutcome.ok s ↔ _
    by_cases hl : t.length = n
    · rw [if_pos hl]
      simp only [POutcome.ok.injEq, Option.some.injEq]
      constructor
      · rintro rfl
        exact ⟨rfl, hl⟩
      · rintro ⟨rfl, _⟩
        rfl
    · rw [if_neg hl]
      simp only [Option.some.injEq]
      constructor
      · intro hpan
        exact absurd hpan (by simp)
      · rintro ⟨rfl, hn⟩
        exact absurd hn hl

/-- Unfolding of the compact decoder: success means the loop succeeded and
produced exactly `n` chain values. -/
theorem compact_raw_witness_ok_iff (n : Nat) (w : List (List Nat))
    (s : List (List Nat)) :
    wots.compact.raw_witness_to_signature n w = POutcome.ok s ↔
      (wots.compact.rawWitnessAux w = some s ∧ s.length = n) := by
  unfold wots.compact.raw_witness_to_signature
  rcases h : wots.compact.rawWitnessAux w with _ | t
  · simp
  · show (if t.length = n then POutcome.ok t else POutcome.panicked) = POutcome.ok s ↔ _
    by_cases hl : t.length = n
    · rw [if_pos hl]
      simp only [POutcome.ok.injEq, Option.some.injEq]
      constructor
      · rintro rfl
        exact ⟨rfl, hl⟩
      · rintro ⟨rfl, _⟩
        rfl
    · rw [if_neg hl]
      simp only [Option.some.injEq]
      constructor
      · intro hpan
        exact absurd hpan (by simp)
      · rintro ⟨rfl, hn⟩
        exact absurd hn hl

/-- Pointwise description of a successful compact loop. -/
theorem compactAux_get? :
    ∀ (w : List (List Nat)) (s : List (List Nat)),
      wots.compact.rawWitnessAux w = some s → ∀ i : Nat,
        s.get? i = (w.get? i).bind wots.decodeChain := by
  intro w
  induction w with
  | nil => intro s h i; simp [wots.compact.rawWitnessAux] at h; subst h; simp
  | cons g rest ih =>
    intro s h i
    rw [wots.compact.rawWitnessAux] at h
    rcases hc : wots.decodeChain g with _ | p <;> rw [hc] at h
    · exact absurd h (by simp)
    rcases ht : wots.compact.rawWitnessAux rest with _ | tail <;> rw [ht] at h
    · exact absurd h (by simp)
    simp only [Option.some.injEq] at h
    subst h
    cases i with
    | zero => simp [hc]
    | succ j => simpa using ih tail ht j

/-- A digit group made of byte values decodes to a byte value. -/
theorem decodeDigit_lt_256 {g : List Nat} {d : Nat} (hb : ∀ b ∈ g, b < 256)
    (h : wots.decodeDigit g = some d) : d < 256 := by
  rcases g with _ | ⟨b, rest⟩
  · simp [wots.decodeDigit] at h
    omega
  · rcases rest with _ | ⟨c, rest2⟩
    · simp [wots.decodeDigit] at h
      subst h
      exact hb b (by simp)
    · simp [wots.decodeDigit] at h

/-- All digits produced by a successful pair loop over byte-valued groups are
byte values. -/
theorem rawWitnessAux_digit_bound :
    ∀ (w : List (List Nat)) (s : List (List Nat × Nat)),
      (∀ g ∈ w, ∀ b ∈ g, b < 256) → wots.rawWitnessAux w = some s →
        ∀ p ∈ s, p.2 < 256 := by
  intro w
  induction w using List.twoStepInduction with
  | h0 => intro s _ h; simp [wots.rawWitnessAux] at h; subst h; simp
  | h1 a => intro s _ h; simp [wots.rawWitnessAux] at h
  | h2 a b l ih =>
    intro s hb h
    rw [wots.rawWitnessAux] at h
    rcases hc : wots.decodeChain a with _ | p <;> rw [hc] at h
    · exact absurd h (by simp)
    rcases hd : wots.decodeDigit b with _ | d <;> rw [hd] at h
    · exact absurd h (by simp)
    rcases ht : wots.rawWitnessAux l with _ | tail <;> rw [ht] at h
    · exact absurd h (by simp)
    simp only [Option.some.injEq] at h
    subst h
    intro q hq
    rcases List.mem_cons.mp hq with hq | hq
    · subst hq
      exact decodeDigit_lt_256 (hb b (by simp)) hd
    · exact ih tail (fun g hg => hb g (by simp [hg])) ht q hq

/-- Pointwise description of the full encoder: group `2 i` is the preimage of
pair `i` and group `2 i + 1` its minimal digit encoding. -/
theorem signature_to_raw_witness_get? :
    ∀ (sig : List (List Nat × Nat)) (i : Nat) (p : List Nat × Nat),
      sig.get? i = some p →
        (wots.signature_to_raw_witness sig).get? (2 * i) = some p.1 ∧
        (wots.signature_to_raw_witness sig).get? (2 * i + 1) =
          some (u32_to_le_bytes_minimal p.2) := by
  intro sig
  induction sig with
  | nil => intro i p h; simp at h
  | cons q rest ih =>
    intro i p h
    cases i with
    | zero =>
      simp only [List.get?_cons_zero, Option.some.injEq] at h
      subst h
      simp [wots.signature_to_raw_witness]
    | succ j =>
      simp only [List.get?_cons_succ] at h
      have := ih j p h
      have h2j : 2 * (j + 1) = (2 * j + 1) + 1 := by ring
      simp only [wots.signature_to_raw_witness, List.map_cons, List.flatten_cons,
        List.cons_append, List.nil_append] at this ⊢
      rw [h2j]
      simp only [List.get?_cons_succ]
      exact this

/-- The checksum over 32 hexadecimal digits needs `log_16 480 + 1 = 3`
digits. -/
theorem nat_log_16_480 : Nat.log 16 480 = 2 :=
  Nat.log_eq_of_pow_le_of_lt_pow (by norm_num) (by norm_num)

/-- The checksum over 64 hexadecimal digits needs `log_16 960 + 1 = 3`
digits. -/
theorem nat_log_16_960 : Nat.log 16 960 = 2 :=
  Nat.log_eq_of_pow_le_of_lt_pow (by norm_num) (by norm_num)

/-- The derived parameters of the `wots_hash` instantiation, in closed form. -/
theorem wots_hash_PS_eq :
    wots_hash.PS =
      { digit_bit_width := 4, message_digit_count := 32, checksum_digit_count := 3 } := by
  show Parameters.new_by_bit_length (HASH_LEN * 8) 4 = _
  unfold Parameters.new_by_bit_length HASH_LEN
  norm_num [nat_log_16_480]

/-- The derived parameters of the `wots256` instantiation, in closed form. -/
theorem wots256_PS_eq :
    wots256.PS =
      { digit_bit_width := 4, message_digit_count := 64, checksum_digit_count := 3 } := by
  show Parameters.new_by_bit_length (BIGINT_LEN * 8) 4 = _
  unfold Parameters.new_by_bit_length BIGINT_LEN
  norm_num [nat_log_16_960]

/-- The total digit count of the `wots_hash` instantiation is 35. -/
theorem wots_hash_N_DIGITS_eq : wots_hash.N_DIGITS = 35 := by
  show wots_hash.PS.total_digit_len = 35
  rw [wots_hash_PS_eq]
  rfl

/-- The total digit count of the `wots256` instantiation is 67. -/
theorem wots256_N_DIGITS_eq : wots256.N_DIGITS = 67 := by
  show wots256.PS.total_digit_len = 67
  rw [wots256_PS_eq]
  rfl

/-!
Claim theorems.
-/

/-- C1: for every signature of the instantiation's shape — `n` pairs of a
20-byte chain value and a byte digit, which covers every signature produced
by `get_signature` — encoding with `signature_to_raw_witness` and decoding
with `raw_witness_to_signature` returns the original signature, in both the
full and the compact variant. -/
theorem wots_signature_roundtrip (n : Nat) (sig : List (List Nat × Nat))
    (csig : List (List Nat))
    (hlen : sig.length = n)
    (h20 : ∀ p ∈ sig, (p.1).length = 20) (hd : ∀ p ∈ sig, p.2 < 256)
    (hclen : csig.length = n) (hc20 : ∀ g ∈ csig, g.length = 20) :
    wots.raw_witness_to_signature n (wots.signature_to_raw_witness sig) =
      POutcome.ok sig ∧
    wots.compact.raw_witness_to_signature n
      (wots.compact.signature_to_raw_witness csig) = POutcome.ok csig := by
  constructor
  · exact (raw_witness_to_signature_ok_iff n _ sig).mpr
      ⟨rawWitnessAux_encode sig h20 hd, hlen⟩
  · exact (compact_raw_witness_ok_iff n _ csig).mpr
      ⟨compactAux_encode csig hc20, hclen⟩

/-- Witness for C1 at a concrete one-digit signature. -/
theorem wots_signature_roundtrip_witness :
    wots.raw_witness_to_signature 1
      (wots.signature_to_raw_witness [(List.replicate 20 0, 5)]) =
        POutcome.ok [(List.replicate 20 0, 5)] ∧
    wots.compact.raw_witness_to_signature 1
      (wots.compact.signature_to_raw_witness [List.replicate 20 7]) =
        POutcome.ok [List.replicate 20 7] :=
  wots_signature_roundtrip 1 [(List.replicate 20 0, 5)] [List.replicate 20 7]
    (by decide) (by decide) (by decide) (by decide) (by decide)

/-- C2 counterexample: on the non-hex secret `"zz"`, `get_signature` (both
variants) and `generate_public_key` panic (`panic!("Invalid hex string for
secret")`) instead of returning a typed `InvalidSecretEncoding` error value —
the embedded functions have no error channel at all. -/
theorem invalid_secret_panic_counterexample :
    wots.get_signature id (fun _ _ => []) wots_hash.PS 35 ['z', 'z'] [] =
      POutcome.panicked ∧
    wots.generate_public_key id (fun _ _ => []) wots_hash.PS 35 ['z', 'z'] =
      POutcome.panicked ∧
    wots.compact.get_signature id (fun _ _ => []) wots_hash.PS 35 ['z', 'z'] [] =
      POutcome.panicked := by
  have hz : hexDecode ['z', 'z'] = none := by decide
  refine ⟨?_, ?_, ?_⟩ <;>
    simp [wots.get_signature, wots.generate_public_key, wots.compact.get_signature, hz]

/-- C2 as amended: for every secret that is not valid hex, `get_signature`
(both variants) and `generate_public_key` terminate by a panic rather than
returning; no typed error is ever produced. -/
theorem invalid_secret_panics (H : List Nat → List Nat)
    (seedFn : List Nat → Nat → List Nat) (p : Parameters) (n : Nat)
    (secret : List Char) (msg : List Nat) (h : hexDecode secret = none) :
    wots.get_signature H seedFn p n secret msg = POutcome.panicked ∧
    wots.generate_public_key H seedFn p n secret = POutcome.panicked ∧
    wots.compact.get_signature H seedFn p n secret msg = POutcome.panicked := by
  unfold wots.get_signature wots.generate_public_key wots.compact.get_signature
  rw [h]
  exact ⟨rfl, rfl, rfl⟩

/-- Witness for the amended C2 at a concrete non-hex secret. -/
theorem invalid_secret_panics_witness :
    wots.get_signature id (fun _ _ => []) wots256.PS 67 ['x'] [3] =
      POutcome.panicked ∧
    wots.generate_public_key id (fun _ _ => []) wots256.PS 67 ['x'] =
      POutcome.panicked ∧
    wots.compact.get_signature id (fun _ _ => []) wots256.PS 67 ['x'] [3] =
      POutcome.panicked :=
  invalid_secret_panics id (fun _ _ => []) wots256.PS 67 ['x'] [3] (by decide)

/-- C3 counterexample: on a witness with the wrong byte-group count (zero
groups where `2 * 35` resp. `35` are expected), both decoders panic (the
final `try_into().unwrap()`) instead of returning a typed `MalformedWitness`
error value — the embedded decoders have no error channel at all. -/
theorem wrong_group_count_panic_counterexample :
    wots.raw_witness_to_signature 35 [] = POutcome.panicked ∧
    wots.compact.raw_witness_to_signature 35 [] = POutcome.panicked := by
  constructor <;> rfl

/-- C3 as amended: a witness whose byte-group count differs from
`2 * total_digit_count` (full) or `total_digit_count` (compact) makes the
decoder panic rather than return a shorter or longer signature; no typed
error is produced. -/
theorem wrong_group_count_panics (n : Nat) (w cw : List (List Nat))
    (hw : w.length ≠ 2 * n) (hcw : cw.length ≠ n) :
    wots.raw_witness_to_signature n w = POutcome.panicked ∧
    wots.compact.raw_witness_to_signature n cw = POutcome.panicked := by
  constructor
  · rcases hout : wots.raw_witness_to_signature n w with s | _
    · obtain ⟨haux, hlen⟩ := (raw_witness_to_signature_ok_iff n w s).mp hout
      have := rawWitnessAux_length w s haux
      omega
    · rfl
  · rcases hout : wots.compact.raw_witness_to_signature n cw with s | _
    · obtain ⟨haux, hlen⟩ := (compact_raw_witness_ok_iff n cw s).mp hout
      have := compactAux_length cw s haux
      omega
    · rfl

/-- Witness for the amended C3 at concrete wrong-length witnesses. -/
theorem wrong_group_count_panics_witness :
    wots.raw_witness_to_signature 35 [[], []] = POutcome.panicked ∧
    wots.compact.raw_witness_to_signature 35 [[], []] = POutcome.panicked :=
  wrong_group_count_panics 35 [[], []] [[], []] (by decide) (by decide)

/-- C4: for the `wots_hash` instantiation (`digit_bit_width = 4`,
`message_byte_length = HASH_LEN = 16`), the derived parameters have 32
message digits, 3 checksum digits, and `N_DIGITS = 35` total digits. -/
theorem wots_hash_parameter_derivation :
    wots_hash.PS.digit_bit_width = 4 ∧
    wots_hash.PS.message_digit_count = 32 ∧
    wots_hash.PS.checksum_digit_count = 3 ∧
    wots_hash.N_DIGITS = 35 := by
  rw [wots_hash_N_DIGITS_eq, wots_hash_PS_eq]
  exact ⟨rfl, rfl, rfl, rfl⟩

/-- C5: the program fixes exactly two WOTS instantiations — `wots_hash` for
16-byte messages and `wots256` for 32-byte messages — with distinct derived
`Parameters` and distinct total digit counts, hence distinct
`PublicKey`/`Signature` array lengths, so the two configurations are not
interchangeable. -/
theorem two_fixed_instantiations :
    wots_hash.MSG_LEN = 16 ∧ wots256.MSG_LEN = 32 ∧
    wots_hash.N_DIGITS = 35 ∧ wots256.N_DIGITS = 67 ∧
    wots_hash.PS ≠ wots256.PS ∧
    wots_hash.N_DIGITS ≠ wots256.N_DIGITS := by
  refine ⟨rfl, rfl, wots_hash_N_DIGITS_eq, wots256_N_DIGITS_eq, ?_, ?_⟩
  · rw [wots_hash_PS_eq, wots256_PS_eq]
    decide
  · rw [wots_hash_N_DIGITS_eq, wots256_N_DIGITS_eq]
    decide

/-- C6: in a successfully decoded witness, an empty byte group at a
chain-value slot yields the all-zero 20-byte value and an empty byte group at
a digit-value slot yields digit 0, in both the full and the compact decoder;
the surrounding decode succeeds, so this is a decoding rule, not an error. -/
theorem empty_group_decodes_to_zero (n i : Nat) (w cw : List (List Nat))
    (s : List (List Nat × Nat)) (cs : List (List Nat))
    (hs : wots.raw_witness_to_signature n w = POutcome.ok s)
    (hcs : wots.compact.raw_witness_to_signature n cw = POutcome.ok cs) :
    (w.get? (2 * i) = some [] →
      ∃ pr, s.get? i = some pr ∧ pr.1 = List.replicate 20 0) ∧
    (w.get? (2 * i + 1) = some [] → ∃ pr, s.get? i = some pr ∧ pr.2 = 0) ∧
    (cw.get? i = some [] → cs.get? i = some (List.replicate 20 0)) := by
  obtain ⟨haux, hlen⟩ := (raw_witness_to_signature_ok_iff n w s).mp hs
  obtain ⟨hcaux, hclen⟩ := (compact_raw_witness_ok_iff n cw cs).mp hcs
  have heq := rawWitnessAux_get? w s haux i
  have hwlen := rawWitnessAux_length w s haux
  refine ⟨?_, ?_, ?_⟩
  · intro h2i
    rw [h2i] at heq
    have hchain : wots.decodeChain [] = some (List.replicate 20 0) := rfl
    rw [Option.some_bind, hchain, Option.some_bind] at heq
    have hi : i < s.length := by
      have := (List.get?_eq_some.mp h2i).1
      omega
    rcases hdig : (w.get? (2 * i + 1)).bind wots.decodeDigit with _ | d
    · rw [hdig] at heq
      simp only [Option.map_none'] at heq
      exact absurd heq (by rw [List.get?_eq_get hi]; simp)
    · rw [hdig] at heq
      simp only [Option.map_some'] at heq
      exact ⟨(List.replicate 20 0, d), heq, rfl⟩
  · intro h2i1
    rw [h2i1] at heq
    have hdig : wots.decodeDigit [] = some 0 := rfl
    rw [Option.some_bind, hdig] at heq
    have hi : i < s.length := by
      have := (List.get?_eq_some.mp h2i1).1
      omega
    rcases hch : (w.get? (2 * i)).bind wots.decodeChain with _ | p
    · rw [hch] at heq
      simp only [Option.none_bind] at heq
      exact absurd heq (by rw [List.get?_eq_get hi]; simp)
    · rw [hch] at heq
      simp only [Option.some_bind, Option.map_some'] at heq
      exact ⟨(p, 0), heq, rfl⟩
  · intro hci
    have hceq := compactAux_get? cw cs hcaux i
    rw [hci, Option.some_bind] at hceq
    exact hceq

/-- Witness for C6 at a concrete all-empty witness. -/
theorem empty_group_decodes_to_zero_witness :
    ([[], []] : List (List Nat)).get? 0 = some [] ∧
    (∃ pr, ([(List.replicate 20 0, 0)] : List (List Nat × Nat)).get? 0 = some pr ∧
      pr.1 = List.replicate 20 0) :=
  ⟨rfl,
    (empty_group_decodes_to_zero 1 0 [[], []] [[]] [(List.replicate 20 0, 0)]
      [List.replicate 20 0] (by decide) (by decide)).1 rfl⟩

/-- C7: in the full encoder, the byte group at a digit-value slot is the
minimal-length encoding of the digit: the empty group for digit 0, a single
byte otherwise, and never longer than one byte. -/
theorem digit_encoding_minimal (sig : List (List Nat × Nat)) (i : Nat)
    (pr : List Nat × Nat) (hget : sig.get? i = some pr) (hd : pr.2 < 256) :
    (wots.signature_to_raw_witness sig).get? (2 * i + 1) =
      some (if pr.2 = 0 then [] else [pr.2]) ∧
    ∀ g, (wots.signature_to_raw_witness sig).get? (2 * i + 1) = some g →
      g.length ≤ 1 := by
  have henc := (signature_to_raw_witness_get? sig i pr hget).2
  rw [u32_to_le_bytes_minimal_byte hd] at henc
  refine ⟨henc, ?_⟩
  intro g hg
  rw [henc] at hg
  simp only [Option.some.injEq] at hg
  subst hg
  by_cases h0 : pr.2 = 0 <;> simp [h0]

/-- Witness for C7 at a concrete two-digit signature with digits 0 and 9. -/
theorem digit_encoding_minimal_witness :
    (wots.signature_to_raw_witness
      [(List.replicate 20 0, 0), (List.replicate 20 1, 9)]).get? (2 * 1 + 1) =
      some [9] ∧
    ∀ g, (wots.signature_to_raw_witness
      [(List.replicate 20 0, 0), (List.replicate 20 1, 9)]).get? (2 * 1 + 1) =
        some g → g.length ≤ 1 := by
  have := digit_encoding_minimal
    [(List.replicate 20 0, 0), (List.replicate 20 1, 9)] 1
    (List.replicate 20 1, 9) (by decide) (by decide)
  simpa using this

/-- C8 counterexample: the full decoder accepts a witness whose digit groups
carry the byte 255 and returns a signature whose digit values are all 255,
far outside `[0, 15]` — the decoder never checks the
`2 ^ digit_bit_width − 1` digit bound. -/
theorem decoder_digit_range_counterexample :
    wots.raw_witness_to_signature 35
      ((List.replicate 35 [([] : List Nat), [255]]).flatten) =
      POutcome.ok (List.replicate 35 (List.replicate 20 0, 255)) ∧
    ¬ (255 ≤ 15) := by
  constructor
  · rfl
  · decide

/-- C8 as amended: every signature accepted and returned by the full decoder
on a byte-valued witness has digit values in `[0, 255]` (the full byte
range); the decoder enforces only the one-byte width of the digit group, not
the `[0, 2 ^ digit_bit_width − 1]` bound. -/
theorem decoder_digit_byte_bound (n : Nat) (w : List (List Nat))
    (s : List (List Nat × Nat))
    (hb : ∀ g ∈ w, ∀ b ∈ g, b < 256)
    (hs : wots.raw_witness_to_signature n w = POutcome.ok s) :
    ∀ p ∈ s, p.2 < 256 := by
  obtain ⟨haux, _⟩ := (raw_witness_to_signature_ok_iff n w s).mp hs
  exact rawWitnessAux_digit_bound w s hb haux

/-- Witness for the amended C8 at a concrete one-digit witness and its single
pair. -/
theorem decoder_digit_byte_bound_witness :
    ((List.replicate 20 0, (7 : Nat))).2 < 256 :=
  decoder_digit_byte_bound 1 [[], [7]] [(List.replicate 20 0, 7)]
    (by decide) (by decide) (List.replicate 20 0, 7) (by decide)

/-- C9: the full decoder returns a signature exactly when the witness has
`2 * n` byte groups, every even-indexed group is empty or exactly 20 bytes,
and every odd-indexed group is empty or one byte; on every other witness it
panics instead of returning (the decoder has only the two outcomes). -/
theorem full_decoder_totality_iff (n : Nat) (w : List (List Nat)) :
    ((∃ s, wots.raw_witness_to_signature n w = POutcome.ok s) ↔
      (w.length = 2 * n ∧ ∀ i g, w.get? i = some g →
        (i % 2 = 0 → g.length = 0 ∨ g.length = 20) ∧
        (i % 2 = 1 → g.length ≤ 1))) ∧
    ((∃ s, wots.raw_witness_to_signature n w = POutcome.ok s) ∨
      wots.raw_witness_to_signature n w = POutcome.panicked) := by
  constructor
  · constructor
    · rintro ⟨s, hs⟩
      obtain ⟨haux, hlen⟩ := (raw_witness_to_signature_ok_iff n w s).mp hs
      obtain ⟨heven, hcond⟩ := (rawWitnessAux_isSome_iff w).mp ⟨s, haux⟩
      refine ⟨?_, hcond⟩
      have := rawWitnessAux_length w s haux
      omega
    · rintro ⟨hlen, hcond⟩
      obtain ⟨s, haux⟩ := (rawWitnessAux_isSome_iff w).mpr ⟨by omega, hcond⟩
      refine ⟨s, (raw_witness_to_signature_ok_iff n w s).mpr ⟨haux, ?_⟩⟩
      have := rawWitnessAux_length w s haux
      omega
  · rcases hout : wots.raw_witness_to_signature n w with s | _
    · exact Or.inl ⟨s, rfl⟩
    · exact Or.inr rfl

/-- Witness for C9: a well-shaped two-group witness decodes, a malformed one
panics. -/
theorem full_decoder_totality_iff_witness :
    (∃ s, wots.raw_witness_to_signature 1 [[], []] = POutcome.ok s) ∧
    wots.raw_witness_to_signature 1 [[], [5, 6]] = POutcome.panicked := by
  constructor
  · refine (full_decoder_totality_iff 1 [[], []]).1.mpr ⟨rfl, ?_⟩
    intro i g hg
    rcases i with _ | (_ | j)
    · simp only [List.get?_cons_zero, Option.some.injEq] at hg
      subst hg
      exact ⟨fun _ => Or.inl rfl, by omega⟩
    · simp only [List.get?_cons_succ, List.get?_cons_zero, Option.some.injEq] at hg
      subst hg
      exact ⟨by omega, fun _ => by simp⟩
    · simp at hg
  · rcases (full_decoder_totality_iff 1 [[], [5, 6]]).2 with ⟨s, hs⟩ | hpan
    · obtain ⟨_, hcond⟩ := (full_decoder_totality_iff 1 [[], [5, 6]]).1.mp ⟨s, hs⟩
      have := (hcond 1 [5, 6] rfl).2 (by omega)
      simp at this
    · exact hpan

/-- C10: `get_peg_out_init_event` surfaces an RPC failure and a log-decoding
failure as `Err` values, but when a successfully fetched event carries field
data that fails domain parsing — an unparsable destination address, an
invalid operator public key, a missing block timestamp or a missing
transaction hash — it panics via `unwrap` instead of returning `Err`; on a
fully well-formed event it neither errs nor panics. -/
theorem peg_out_init_event_error_and_panic_profile :
    (∀ (ap : String → Option (Option (List Nat)))
       (pp : List Nat → Option (List Nat)) (e : String),
      ethereum_adaptor.get_peg_out_init_event ap pp (Except.error e) =
        Res.err e) ∧
    (∀ (ap : String → Option (Option (List Nat)))
       (pp : List Nat → Option (List Nat)) (e : String),
      ethereum_adaptor.get_peg_out_init_event ap pp
        (Except.ok [Except.error e]) = Res.err e) ∧
    ethereum_adaptor.get_peg_out_init_event ethereum_adaptor.noneAddrParse
      ethereum_adaptor.goodPkParse
      (Except.ok [Except.ok ethereum_adaptor.goodLog]) = Res.panicked ∧
    ethereum_adaptor.get_peg_out_init_event ethereum_adaptor.goodAddrParse
      ethereum_adaptor.nonePkParse
      (Except.ok [Except.ok ethereum_adaptor.goodLog]) = Res.panicked ∧
    ethereum_adaptor.get_peg_out_init_event ethereum_adaptor.goodAddrParse
      ethereum_adaptor.goodPkParse
      (Except.ok [Except.ok ethereum_adaptor.logNoTimestamp]) = Res.panicked ∧
    ethereum_adaptor.get_peg_out_init_event ethereum_adaptor.goodAddrParse
      ethereum_adaptor.goodPkParse
      (Except.ok [Except.ok ethereum_adaptor.logNoTxHash]) = Res.panicked ∧
    ethereum_adaptor.get_peg_out_init_event ethereum_adaptor.goodAddrParse
      ethereum_adaptor.goodPkParse
      (Except.ok [Except.ok ethereum_adaptor.goodLog]) ≠ Res.panicked := by
  refine ⟨fun ap pp e => rfl, fun ap pp e => rfl, ?_, ?_, ?_, ?_, ?_⟩
  · rfl
  · rfl
  · rfl
  · rfl
  · decide
